import Mathlib

/-!
Verification of the caching and performance-optimization layer of the
IMAP-Email-Server repository: a shallow embedding of the CacheService
(get / set / delete / clearPattern / generateKey and the typed facade
methods), of the EmailService wrappers (listEmails, searchEmails,
invalidateCache) and of the PerformanceOptimizer utilities
(createConnectionPool, retry), together with theorems about the
cache-key, TTL, capacity, invalidation, pool and retry properties.

Conventions of the embedding:
* JavaScript numbers that hold timestamps / ttls are modelled as Int
  (all arithmetic in the sources is integral);
* a JavaScript Map is modelled as an association list with
  insert-or-replace semantics (Map.set updates in place, appends fresh
  keys at the end, exactly as the JS iteration order behaves);
* Record of string times any parameter bags are association lists over
  PVal, whose jsToString mirrors JS template-literal stringification
  (objects print as "[object Object]");
* async functions that catch internal errors are modelled as functions
  into Except whose catch clause is explicit in the definition.
-/

namespace EmailCache

/-- The EmailSearchQuery interface of src types (flags and size sub-object
omitted: they never influence key derivation, cacheability or any other
modelled path; the from and to fields are renamed fromAddr and toAddr
because from is a Lean keyword). -/
structure EmailSearchQuery where
  query : Option String := none
  fromAddr : Option String := none
  toAddr : Option String := none
  subject : Option String := none
  body : Option String := none
  dateFrom : Option String := none
  dateTo : Option String := none
  hasAttachments : Option Bool := none
  isRead : Option Bool := none
  deriving DecidableEq

/-- A JavaScript value as it can appear in a Record of string to any
parameter bag handed to CacheService.generateKey. -/
inductive PVal where
  | str (s : String)
  | num (n : Int)
  | bool (b : Bool)
  | obj (q : EmailSearchQuery)
  deriving DecidableEq

/-- JS template-literal stringification of a parameter value: strings
unchanged, numbers in decimal, booleans as true/false, and any object as
"[object Object]" (the default Object.prototype.toString). -/
def PVal.jsToString : PVal → String
  | .str s => s
  | .num n => toString n
  | .bool b => if b then "true" else "false"
  | .obj _ => "[object Object]"

/-- The standard base64 alphabet used by Buffer.toString with base64. -/
def b64Alphabet : List Char :=
  "ABCDEFGHIJKLMNOPQRSTUVWXYZabcdefghijklmnopqrstuvwxyz0123456789+/".data

def b64Char (n : Nat) : Char := b64Alphabet.getD n '?'

/-- Base64-encode a byte list, three bytes at a time with = padding. -/
def b64Chunks : List Nat → List Char
  | [] => []
  | [a] => [b64Char (a / 4), b64Char (a % 4 * 16), '=', '=']
  | [a, b] => [b64Char (a / 4), b64Char (a % 4 * 16 + b / 16), b64Char (b % 16 * 4), '=']
  | a :: b :: c :: rest =>
      b64Char (a / 4) :: b64Char (a % 4 * 16 + b / 16) ::
        b64Char (b % 16 * 4 + c / 64) :: b64Char (c % 64) :: b64Chunks rest

/-- Buffer.from(s).toString base64 for the ASCII strings produced by key
derivation (for ASCII, UTF-8 bytes coincide with the code points). -/
def base64 (s : String) : String := (b64Chunks (s.data.map Char.toNat)).asString

/-- Lookup in an association list, first binding wins (JS property access
on the object literal bags used by the service, whose keys are unique). -/
def lookupStr (k : String) : List (String × PVal) → Option PVal
  | [] => none
  | (k', v) :: rest => if k' = k then some v else lookupStr k rest

/-- Code-unit comparison of two character lists, the order
Array.prototype.sort applies to the key names (for these ASCII keys the
UTF-16 code units are the code points). -/
def charListLeB : List Char → List Char → Bool
  | [], _ => true
  | _ :: _, [] => false
  | a :: as, b :: bs =>
      if a.toNat < b.toNat then true
      else if b.toNat < a.toNat then false
      else charListLeB as bs

/-- The sort relation on whole key names. -/
abbrev strLe (a b : String) : Prop := charListLeB a.data b.data = true

theorem charListLeB_cons_iff (a b : Char) (as bs : List Char) :
    charListLeB (a :: as) (b :: bs) = true ↔
      (a.toNat < b.toNat ∨ (a.toNat = b.toNat ∧ charListLeB as bs = true)) := by
  simp only [charListLeB]
  by_cases h1 : a.toNat < b.toNat
  · simp [h1]
  · by_cases h2 : b.toNat < a.toNat
    · simp [h1, h2]
      omega
    · have h3 : a.toNat = b.toNat := by omega
      simp [h1, h2, h3]

theorem charListLeB_total : ∀ l1 l2 : List Char,
    charListLeB l1 l2 = true ∨ charListLeB l2 l1 = true
  | [], _ => .inl rfl
  | _ :: _, [] => .inr rfl
  | a :: as, b :: bs => by
      rw [charListLeB_cons_iff, charListLeB_cons_iff]
      rcases charListLeB_total as bs with h | h
      · by_cases hab : a.toNat < b.toNat
        · left; left; exact hab
        · by_cases hba : b.toNat < a.toNat
          · right; left; exact hba
          · left; right; exact ⟨by omega, h⟩
      · by_cases hba : b.toNat < a.toNat
        · right; left; exact hba
        · by_cases hab : a.toNat < b.toNat
          · left; left; exact hab
          · right; right; exact ⟨by omega, h⟩

theorem charListLeB_trans : ∀ l1 l2 l3 : List Char,
    charListLeB l1 l2 = true → charListLeB l2 l3 = true → charListLeB l1 l3 = true
  | [], _, _ => by intro _ _; rfl
  | _ :: _, [], _ => by intro h _; simp [charListLeB] at h
  | _ :: _, _ :: _, [] => by intro _ h; simp [charListLeB] at h
  | a :: as, b :: bs, c :: cs => by
      intro h12 h23
      rw [charListLeB_cons_iff] at h12 h23 ⊢
      rcases h12 with h | ⟨he, hr⟩
      · rcases h23 with h' | ⟨he', _⟩
        · left; omega
        · left; omega
      · rcases h23 with h' | ⟨he', hr'⟩
        · left; omega
        · right
          exact ⟨by omega, charListLeB_trans as bs cs hr hr'⟩

theorem charListLeB_antisymm : ∀ l1 l2 : List Char,
    charListLeB l1 l2 = true → charListLeB l2 l1 = true → l1 = l2
  | [], [] => by intro _ _; rfl
  | [], _ :: _ => by intro _ h; simp [charListLeB] at h
  | _ :: _, [] => by intro h _; simp [charListLeB] at h
  | a :: as, b :: bs => by
      intro h12 h21
      rw [charListLeB_cons_iff] at h12 h21
      rcases h12 with h | ⟨he, hr⟩
      · rcases h21 with h' | ⟨he', _⟩ <;> omega
      · rcases h21 with h' | ⟨he', hr'⟩
        · omega
        · have hch : a = b := Char.eq_of_val_eq (UInt32.ext he)
          rw [hch, charListLeB_antisymm as bs hr hr']

instance : IsTotal String strLe := ⟨fun a b => charListLeB_total a.data b.data⟩

instance : IsTrans String strLe :=
  ⟨fun a b c => charListLeB_trans a.data b.data c.data⟩

instance : IsAntisymm String strLe :=
  ⟨fun a b h1 h2 => String.ext (charListLeB_antisymm a.data b.data h1 h2)⟩

/-- Array.prototype.sort on the key names: lexicographic by code unit,
which for these ASCII keys is the plain string order. -/
def sortKeys (ks : List String) : List String := ks.insertionSort strLe

/-- CacheService.generateKey: sort the parameter names, join
name:stringified-value with vertical bars, then prefix:base64(paramString).
(The prefix parameter of the source is renamed pfx.) -/
def generateKey (pfx : String) (params : List (String × PVal)) : String :=
  let ks := sortKeys (params.map Prod.fst)
  let paramString := String.intercalate "|"
    (ks.map fun k => k ++ ":" ++ (PVal.jsToString ((lookupStr k params).getD (.str "undefined"))))
  pfx ++ ":" ++ base64 paramString

/-- The CacheItem interface: stored key, payload, ttl in seconds and
creation timestamp in milliseconds. -/
structure CacheItem (V : Type) where
  key : String
  value : V
  ttl : Int
  createdAt : Int
  deriving DecidableEq

/-- The in-process memory cache: a JS Map from keys to cache items. -/
abbrev Store (V : Type) := List (String × CacheItem V)

/-- Map.prototype.get. -/
def mapGet (store : Store V) (key : String) : Option (CacheItem V) :=
  match store with
  | [] => none
  | (k, it) :: rest => if k = key then some it else mapGet rest key

/-- Map.prototype.set: update in place, or append a fresh key. -/
def mapSet (store : Store V) (key : String) (item : CacheItem V) : Store V :=
  match store with
  | [] => [(key, item)]
  | (k, it) :: rest => if k = key then (key, item) :: rest else (k, it) :: mapSet rest key item

/-- Map.prototype.delete of one key. -/
def mapDelete (store : Store V) (key : String) : Store V :=
  store.filter (fun e => !(e.1 = key : Bool))

/-- The CacheConfig built in the CacheService constructor:
emailTtl 30 min, listTtl 5 min, folderTtl 1 h, maxSize 1000. -/
structure CacheConfig where
  emailTtl : Int := 30 * 60
  listTtl : Int := 5 * 60
  folderTtl : Int := 60 * 60
  maxSize : Nat := 1000
  deriving DecidableEq

def defaultConfig : CacheConfig := {}

/-- Memory branch of CacheService.get: return the value when
now - createdAt < ttl * 1000, otherwise treat as a miss and delete the
entry; also returns the store after the access. -/
def memGet (store : Store V) (key : String) (now : Int) : Option V × Store V :=
  match mapGet store key with
  | some item =>
      if now - item.createdAt < item.ttl * 1000 then (some item.value, store)
      else (none, mapDelete store key)
  | none => (none, store)

/-- Math.floor(maxSize * 0.1), the batch-eviction count; Nat division is
exact for the configured maxSize of 1000 (and every realistic bound). -/
def evictCount (maxSize : Nat) : Nat := maxSize / 10

/-- The eviction sort of CacheService.set: ascending by createdAt
(the comparator a.createdAt minus b.createdAt), as a stable sort. -/
def sortByCreatedAt (store : Store V) : Store V :=
  store.insertionSort (fun a b => a.2.createdAt ≤ b.2.createdAt)

/-- Batch eviction in CacheService.set: delete from the map the keys of
the oldest tenth of the entries, ordered by createdAt. -/
def evictOldest (store : Store V) (c : Nat) : Store V :=
  let victims := ((sortByCreatedAt store).take c).map Prod.fst
  store.filter (fun e => !(victims.contains e.1))

/-- The actualTtl computation of CacheService.set: ttl or emailTtl, where
the JS or-default also replaces an (unrealistic) explicit 0. -/
def actualTtl (cfg : CacheConfig) (ttl? : Option Int) : Int :=
  match ttl? with
  | some t => if t = 0 then cfg.emailTtl else t
  | none => cfg.emailTtl

/-- Memory branch of CacheService.set: when the map has reached maxSize,
evict the oldest tenth of the entries, then insert the fresh item. -/
def memSet (cfg : CacheConfig) (store : Store V) (key : String) (value : V)
    (ttl? : Option Int) (now : Int) : Store V :=
  let store' := if cfg.maxSize ≤ store.length then evictOldest store (evictCount cfg.maxSize)
                else store
  mapSet store' key ⟨key, value, actualTtl cfg ttl?, now⟩

/-- Bool test that a pattern segment is an initial run of the haystack. -/
def beginsWith : List Char → List Char → Bool
  | [], _ => true
  | _ :: _, [] => false
  | a :: as, b :: bs => a = b && beginsWith as bs

/-- Scan for the first occurrence of a segment and return the remainder
of the haystack after it, none when the segment never occurs. -/
def dropAfterFirst (needle : List Char) : List Char → Option (List Char)
  | [] => if needle.isEmpty then some [] else none
  | b :: bs =>
      if beginsWith needle (b :: bs) then some ((b :: bs).drop needle.length)
      else dropAfterFirst needle bs

/-- Match the literal segments of a star pattern in order, unanchored at
both ends (the source builds new RegExp of the pattern with every star
replaced by dot-star and calls the unanchored regex.test, so a key
matches exactly when the literal segments occur left to right). -/
def matchSegs : List (List Char) → List Char → Bool
  | [], _ => true
  | seg :: rest, hay =>
      match dropAfterFirst seg hay with
      | some hay' => matchSegs rest hay'
      | none => false

/-- Split a glob pattern on the star wildcard into literal segments. -/
def splitOnStar : List Char → List (List Char)
  | [] => [[]]
  | c :: rest =>
      if c = '*' then [] :: splitOnStar rest
      else
        match splitOnStar rest with
        | seg :: segs => (c :: seg) :: segs
        | [] => [[c]]

/-- The memory-branch matcher of CacheService.clearPattern (the literal
pattern segments used in this repository contain no other regex
metacharacters). -/
def globTest (pattern key : String) : Bool :=
  matchSegs (splitOnStar pattern.data) key.data

/-- Memory branch of CacheService.clearPattern: delete every key the
regex accepts. -/
def clearPatternMem (pattern : String) (store : Store V) : Store V :=
  store.filter (fun e => !(globTest pattern e.1))

/-! ## The domain cache facade and the EmailService wrappers -/

/-- The part of ImapConfig that the cache layer reads (port, tls and
password are never consulted on any cached path). -/
structure ImapConfig where
  host : String
  username : String
  deriving DecidableEq

/-- The accountId string built by EmailService: host:username. -/
def accountId (cfg : ImapConfig) : String := cfg.host ++ ":" ++ cfg.username

/-- The key of CacheService.cacheEmail and getCachedEmail:
email:folder:uid — note that no account identity is folded in. -/
def emailKey (folder uid : String) : String := "email:" ++ folder ++ ":" ++ uid

/-- A cached payload: an email list, a single email, or a folder list
(the CacheItem of any stores of the source). -/
inductive CVal (α : Type) where
  | elist (l : List α)
  | email (m : α)
  | folders (f : List String)
  deriving DecidableEq

/-- The parameter bag EmailService.listEmails passes to
getCachedEmailList and cacheEmailList. -/
def listParams (cfg : ImapConfig) (folder : String) (limit offset : Int)
    (sortOrder : String) : List (String × PVal) :=
  [("folder", .str folder), ("limit", .num limit), ("offset", .num offset),
   ("sortOrder", .str sortOrder), ("host", .str cfg.host), ("username", .str cfg.username)]

/-- The derived email-list cache key (cacheEmailList with prefix list). -/
def listKey (cfg : ImapConfig) (folder : String) (limit offset : Int)
    (sortOrder : String) : String :=
  generateKey "emails:list" (listParams cfg folder limit offset sortOrder)

/-- The parameter bag EmailService.searchEmails passes to the list
facade: the searchQuery value is the query object itself. -/
def searchParams (cfg : ImapConfig) (q : EmailSearchQuery) (folder : String)
    (limit offset : Int) : List (String × PVal) :=
  [("searchQuery", .obj q), ("folder", .str folder), ("limit", .num limit),
   ("offset", .num offset), ("host", .str cfg.host), ("username", .str cfg.username)]

/-- The derived search-result cache key (cacheEmailList, prefix search). -/
def searchKey (cfg : ImapConfig) (q : EmailSearchQuery) (folder : String)
    (limit offset : Int) : String :=
  generateKey "emails:search" (searchParams cfg q folder limit offset)

/-- JS truthiness of an optional string (undefined and the empty string
are falsy). -/
def jsTruthyOptStr : Option String → Bool
  | none => false
  | some s => !(s = "" : Bool)

/-- JS truthiness of an optional boolean. -/
def jsTruthyOptBool : Option Bool → Bool
  | none => false
  | some b => b

/-- EmailService.isSearchCacheable: only searches without dateFrom,
dateTo and isRead constraints are cached. -/
def isSearchCacheable (q : EmailSearchQuery) : Bool :=
  !jsTruthyOptStr q.dateFrom && !jsTruthyOptStr q.dateTo && !jsTruthyOptBool q.isRead

/-- What the Mailbox Service collaborator returns for a list or search
request: items, total and hasMore. -/
structure ListResult (α : Type) where
  emails : List α
  total : Int
  hasMore : Bool
  deriving DecidableEq

/-- The successful ListEmailsResponse of the service wrappers (the catch
branch that maps collaborator failures to success false is outside the
cached paths these claims are about). -/
structure ListEmailsResponse (α : Type) where
  success : Bool
  emails : List α
  total : Int
  hasMore : Bool
  deriving DecidableEq

/-- Cache store plus the count of Mailbox Service calls made so far. -/
structure SvcState (α : Type) where
  store : Store (CVal α)
  calls : Nat

/-- EmailService.listEmails over the memory cache backend: on useCache,
consult getCachedEmailList and on a hit answer from the cache with
total set to the cached length and hasMore to cached-length equals
limit; on a miss fetch from the Mailbox Service (counted), and cache the
emails with listTtl only when the result is non-empty. -/
def svcListEmails (imap : String → Int → Int → String → ListResult α)
    (cfg : ImapConfig) (folder : String) (limit offset : Int) (sortOrder : String)
    (useCache : Bool) (now : Int) (st : SvcState α) :
    ListEmailsResponse α × SvcState α :=
  let key := listKey cfg folder limit offset sortOrder
  let fetch : Store (CVal α) → ListEmailsResponse α × SvcState α := fun store' =>
    let r := imap folder limit offset sortOrder
    let store'' :=
      if useCache && !r.emails.isEmpty then
        memSet defaultConfig store' key (CVal.elist r.emails) (some defaultConfig.listTtl) now
      else store'
    (⟨true, r.emails, r.total, r.hasMore⟩, ⟨store'', st.calls + 1⟩)
  if useCache then
    match memGet st.store key now with
    | (some (CVal.elist cached), store') =>
        (⟨true, cached, (cached.length : Int), ((cached.length : Int) == limit)⟩,
         ⟨store', st.calls⟩)
    | (some _, store') => fetch store'
    | (none, store') => fetch store'
  else fetch st.store

/-- EmailService.searchEmails over the memory cache backend: as
listEmails but guarded by isSearchCacheable on both the lookup and the
write. -/
def svcSearchEmails (imapS : EmailSearchQuery → String → Int → Int → ListResult α)
    (cfg : ImapConfig) (q : EmailSearchQuery) (folder : String) (limit offset : Int)
    (useCache : Bool) (now : Int) (st : SvcState α) :
    ListEmailsResponse α × SvcState α :=
  let key := searchKey cfg q folder limit offset
  let fetch : Store (CVal α) → ListEmailsResponse α × SvcState α := fun store' =>
    let r := imapS q folder limit offset
    let store'' :=
      if useCache && isSearchCacheable q && !r.emails.isEmpty then
        memSet defaultConfig store' key (CVal.elist r.emails) (some defaultConfig.listTtl) now
      else store'
    (⟨true, r.emails, r.total, r.hasMore⟩, ⟨store'', st.calls + 1⟩)
  if useCache && isSearchCacheable q then
    match memGet st.store key now with
    | (some (CVal.elist cached), store') =>
        (⟨true, cached, (cached.length : Int), ((cached.length : Int) == limit)⟩,
         ⟨store', st.calls⟩)
    | (some _, store') => fetch store'
    | (none, store') => fetch store'
  else fetch st.store

/-- The mutating operation types of the EmailOperation interface. -/
inductive OpType where
  | mark_read | mark_unread | star | unstar | del | move | copy | add_label | remove_label
  deriving DecidableEq

/-- EmailOperation: type and uid set (targetFolder and labels omitted —
invalidateCache never reads them). The delete literal of the source is
the constructor del because delete collides with other names here. -/
structure EmailOperation where
  type : OpType
  uids : List String
  deriving DecidableEq

/-- EmailService.invalidateCache over the memory backend: delete the
single-email key of every affected uid, clear the list and search
patterns that mention the folder, and for move and delete clear the
folder-list pattern of the account. -/
def invalidateCache (cfg : ImapConfig) (op : EmailOperation) (folder : String)
    (store : Store V) : Store V :=
  let st1 :=
    if op.uids.length > 0 then
      op.uids.foldl (fun s uid => mapDelete s (emailKey folder uid)) store
    else store
  let st2 := clearPatternMem ("emails:list:*" ++ folder ++ "*") st1
  let st3 := clearPatternMem ("emails:search:*" ++ folder ++ "*") st2
  if op.type = .move ∨ op.type = .del then
    clearPatternMem ("folders:" ++ accountId cfg ++ "*") st3
  else st3

/-! ## The external-store branch of the CacheService, with its try/catch -/

/-- The Redis client calls (and JSON steps) the external-store branch of
CacheService performs; each may fail, modelled by Except. -/
structure RedisClient (V : Type) where
  rget : String → Except String (Option String)
  rdel : String → Except String Unit
  rdelAll : List String → Except String Unit
  rsetEx : String → Int → String → Except String Unit
  rkeys : String → Except String (List String)
  parseItem : String → Except String (CacheItem V)
  stringifyItem : CacheItem V → String

/-- The try block of CacheService.get on the Redis branch: fetch, parse,
validate against the TTL, deleting an expired entry. -/
def redisGetBody (c : RedisClient V) (key : String) (now : Int) :
    Except String (Option V) := do
  match ← c.rget key with
  | some cached =>
      if cached = "" then pure none
      else do
        let item ← c.parseItem cached
        if now - item.createdAt < item.ttl * 1000 then pure (some item.value)
        else do
          let _ ← c.rdel key
          pure none
  | none => pure none

/-- CacheService.get on the Redis branch: the surrounding catch logs the
error and falls through to return null. -/
def cacheGetR (c : RedisClient V) (key : String) (now : Int) :
    Except String (Option V) :=
  match redisGetBody c key now with
  | .error _ => .ok none
  | .ok v => .ok v

/-- The try block of CacheService.set on the Redis branch. -/
def redisSetBody (c : RedisClient V) (key : String) (value : V) (ttl? : Option Int)
    (now : Int) : Except String Unit :=
  let t := actualTtl defaultConfig ttl?
  c.rsetEx key t (c.stringifyItem ⟨key, value, t, now⟩)

/-- CacheService.set on the Redis branch: errors are caught and logged. -/
def cacheSetR (c : RedisClient V) (key : String) (value : V) (ttl? : Option Int)
    (now : Int) : Except String Unit :=
  match redisSetBody c key value ttl? now with
  | .error _ => .ok ()
  | .ok _ => .ok ()

/-- CacheService.delete on the Redis branch: errors caught and logged. -/
def cacheDeleteR (c : RedisClient V) (key : String) : Except String Unit :=
  match c.rdel key with
  | .error _ => .ok ()
  | .ok _ => .ok ()

/-- The try block of CacheService.clearPattern on the Redis branch. -/
def redisClearBody (c : RedisClient V) (pattern : String) : Except String Unit := do
  let keys ← c.rkeys pattern
  if keys.length > 0 then c.rdelAll keys else pure ()

/-- CacheService.clearPattern on the Redis branch: errors caught. -/
def cacheClearPatternR (c : RedisClient V) (pattern : String) : Except String Unit :=
  match redisClearBody c pattern with
  | .error _ => .ok ()
  | .ok _ => .ok ()

/-! ## PerformanceOptimizer.createConnectionPool -/

/-- The pool state: the idle array, the in-use set (freshly created
handles are distinct, so a list suffices), and a supply counter standing
for createConnection. -/
structure PoolState where
  pool : List Nat
  inUse : List Nat
  nextId : Nat
  deriving DecidableEq

def emptyPool : PoolState := ⟨[], [], 0⟩

/-- acquire: pop an idle handle (Array.prototype.pop takes the last
element); when none is idle create a fresh handle if the in-use count is
under maxSize, otherwise throw pool exhausted without waiting. -/
def acquire (maxSize : Nat) (st : PoolState) : Except String (Nat × PoolState) :=
  match st.pool.getLast? with
  | some conn => .ok (conn, ⟨st.pool.dropLast, conn :: st.inUse, st.nextId⟩)
  | none =>
      if st.inUse.length < maxSize then
        .ok (st.nextId, ⟨st.pool, st.nextId :: st.inUse, st.nextId + 1⟩)
      else .error "Connection pool exhausted"

/-- release: remove the handle from the in-use set and push it on the
idle array when that is under maxSize, otherwise destroy it. -/
def release (maxSize : Nat) (st : PoolState) (conn : Nat) : PoolState :=
  let inUse' := st.inUse.erase conn
  if st.pool.length < maxSize then ⟨st.pool ++ [conn], inUse', st.nextId⟩
  else ⟨st.pool, inUse', st.nextId⟩

/-- destroy: tear down every handle, idle and in-use. -/
def destroyAll (st : PoolState) : PoolState := ⟨[], [], st.nextId⟩

/-- One client step against the pool; a failed acquire leaves the state
unchanged (the exhaustion error goes to the caller). -/
inductive PoolOp where
  | acq : PoolOp
  | rel (conn : Nat) : PoolOp
  | destroy : PoolOp
  deriving DecidableEq

def poolStep (maxSize : Nat) (st : PoolState) : PoolOp → PoolState
  | .acq =>
      match acquire maxSize st with
      | .ok (_, st') => st'
      | .error _ => st
  | .rel conn => release maxSize st conn
  | .destroy => destroyAll st

/-- The discipline of the claim: every released handle is at that moment
checked out (previously acquired, not yet released). -/
def validOps (maxSize : Nat) (st : PoolState) : List PoolOp → Bool
  | [] => true
  | op :: rest =>
      (match op with
       | .rel conn => st.inUse.contains conn
       | _ => true) && validOps maxSize (poolStep maxSize st op) rest

def runPool (maxSize : Nat) (ops : List PoolOp) : PoolState :=
  ops.foldl (poolStep maxSize) emptyPool

/-! ## PerformanceOptimizer.retry -/

/-- The retry loop from a given attempt index with a number of further
attempts still allowed; returns the outcome, the list of backoff delays
slept, and how many times the operation was invoked. The operation is
indexed by the attempt number so that distinct attempts may behave
differently. -/
def retryAux (op : Nat → Except E A) (baseDelay : Nat) (attempt : Nat) :
    Nat → Except E A × List Nat × Nat
  | 0 =>
      match op attempt with
      | .ok a => (.ok a, [], 1)
      | .error e => (.error e, [], 1)
  | r + 1 =>
      match op attempt with
      | .ok a => (.ok a, [], 1)
      | .error _ =>
          let res := retryAux op baseDelay (attempt + 1) r
          (res.1, baseDelay * 2 ^ attempt :: res.2.1, res.2.2 + 1)

/-- PerformanceOptimizer.retry: attempts 0 through maxRetries, sleeping
baseDelay times two to the attempt after every failure but the last, and
re-throwing the last error when all attempts fail. -/
def retry (op : Nat → Except E A) (maxRetries baseDelay : Nat) :
    Except E A × List Nat × Nat :=
  retryAux op baseDelay 0 maxRetries

/-! ## Supporting lemmas about the map operations -/

theorem mapGet_mapSet_self (store : Store V) (key : String) (item : CacheItem V) :
    mapGet (mapSet store key item) key = some item := by
  induction store with
  | nil => simp [mapSet, mapGet]
  | cons e rest ih =>
      obtain ⟨k, it⟩ := e
      by_cases h : k = key
      · simp [mapSet, h, mapGet]
      · simp [mapSet, h, mapGet, ih]

theorem mapGet_mapDelete_self (store : Store V) (key : String) :
    mapGet (mapDelete store key) key = none := by
  induction store with
  | nil => rfl
  | cons e rest ih =>
      obtain ⟨k, it⟩ := e
      by_cases h : k = key
      · simpa [mapDelete, List.filter, h] using ih
      · simpa [mapDelete, List.filter, h, mapGet] using ih

theorem length_mapSet_le (store : Store V) (key : String) (item : CacheItem V) :
    (mapSet store key item).length ≤ store.length + 1 := by
  induction store with
  | nil => simp [mapSet]
  | cons e rest ih =>
      obtain ⟨k, it⟩ := e
      by_cases h : k = key
      · simp [mapSet, h]
      · simp only [mapSet, h, if_false, List.length_cons]
        omega

theorem length_filter_lt_of_mem {l : List αx} {p : αx → Bool} {x : αx}
    (hx : x ∈ l) (hp : p x = false) : (l.filter p).length < l.length := by
  induction l with
  | nil => cases hx
  | cons a rest ih =>
      rcases List.mem_cons.mp hx with rfl | hmem
      · simp only [List.filter, hp, List.length_cons]
        exact Nat.lt_succ_of_le (List.length_filter_le p rest)
      · cases hpa : p a
        · simp only [List.filter, hpa, List.length_cons]
          exact Nat.lt_succ_of_le (List.length_filter_le p rest)
        · simp only [List.filter, hpa, List.length_cons]
          exact Nat.succ_lt_succ (ih hmem)

/-! ## Claim theorems -/

/-- Claim C1. Failure isolation: for every key, if the backing store's
get throws, CacheService.get still answers ok none to the caller
instead of raising, and none of get, set, delete, clearPattern can
surface an error of the cache layer (every result is an ok value). -/
theorem claim1_failure_isolation {V : Type} (c : RedisClient V) (key pat : String)
    (v : V) (ttl? : Option Int) (now : Int) :
    ((∃ e, c.rget key = .error e) → cacheGetR c key now = .ok none)
    ∧ (cacheGetR c key now).isOk = true
    ∧ cacheSetR c key v ttl? now = .ok ()
    ∧ cacheDeleteR c key = .ok ()
    ∧ cacheClearPatternR c pat = .ok () := by
  refine ⟨?_, ?_, ?_, ?_, ?_⟩
  · rintro ⟨e, he⟩
    simp only [cacheGetR, redisGetBody, he]
    rfl
  · unfold cacheGetR
    cases redisGetBody c key now <;> simp [Except.isOk, Except.toBool]
  · unfold cacheSetR
    split <;> rfl
  · unfold cacheDeleteR
    split <;> rfl
  · unfold cacheClearPatternR
    split <;> rfl

/-- A Redis client whose every network call fails (external store
unreachable mid-operation). -/
def downClient : RedisClient Nat :=
  ⟨fun _ => .error "ECONNREFUSED", fun _ => .error "ECONNREFUSED",
   fun _ => .error "ECONNREFUSED", fun _ _ _ => .error "ECONNREFUSED",
   fun _ => .error "ECONNREFUSED", fun _ => .error "bad json", fun _ => "x"⟩

theorem claim1_witness :
    cacheGetR downClient "email:INBOX:5" 0 = .ok none
    ∧ cacheSetR downClient "email:INBOX:5" 7 (some 1800) 0 = .ok ()
    ∧ cacheDeleteR downClient "email:INBOX:5" = .ok ()
    ∧ cacheClearPatternR downClient "emails:list:*INBOX*" = .ok () := by
  have h := claim1_failure_isolation downClient "email:INBOX:5" "emails:list:*INBOX*"
    7 (some 1800) 0
  exact ⟨h.1 ⟨"ECONNREFUSED", rfl⟩, h.2.2.1, h.2.2.2.1, h.2.2.2.2⟩

/-- Claim C5. TTL expiry: when an entry is resident but
now minus createdAt is at least ttl times 1000, get answers absent and
removes the entry as a side effect of the access; and whenever get does
return a value, the entry it came from was valid at access time. -/
theorem claim5_ttl_expiry {V : Type} :
    (∀ (store : Store V) (key : String) (now : Int) (item : CacheItem V),
        mapGet store key = some item →
        item.ttl * 1000 ≤ now - item.createdAt →
        memGet store key now = (none, mapDelete store key)
          ∧ mapGet (memGet store key now).2 key = none)
    ∧ (∀ (store : Store V) (key : String) (now : Int) (v : V),
        (memGet store key now).1 = some v →
        ∃ item, mapGet store key = some item
          ∧ now - item.createdAt < item.ttl * 1000 ∧ v = item.value) := by
  constructor
  · intro store key now item hfound hexp
    have hlt : ¬(now - item.createdAt < item.ttl * 1000) := not_lt.mpr hexp
    have h1 : memGet store key now = (none, mapDelete store key) := by
      simp [memGet, hfound, hlt]
    exact ⟨h1, by rw [h1]; exact mapGet_mapDelete_self store key⟩
  · intro store key now v hv
    cases hfound : mapGet store key with
    | none => simp [memGet, hfound] at hv
    | some item =>
        by_cases hval : now - item.createdAt < item.ttl * 1000
        · simp only [memGet, hfound, if_pos hval] at hv
          exact ⟨item, rfl, hval, (Option.some_inj.mp hv).symm⟩
        · simp [memGet, hfound, if_neg hval] at hv

/-- A store holding one entry with ttl 1 s created at time 0, read at
time 5000 ms. -/
def c5store : Store Nat := [("k", ⟨"k", 7, 1, 0⟩)]

theorem length_evictOldest_lt {store : Store V} {c : Nat} (hne : store ≠ [])
    (hc : 1 ≤ c) : (evictOldest store c).length < store.length := by
  unfold evictOldest
  cases hs : sortByCreatedAt store with
  | nil =>
      exfalso
      apply hne
      have hperm : List.Perm (sortByCreatedAt store) store :=
        List.perm_insertionSort _ store
      rw [hs] at hperm
      exact hperm.symm.eq_nil
  | cons hd tl =>
      have hmem : hd ∈ store := by
        have h1 : hd ∈ sortByCreatedAt store := by
          rw [hs]; exact List.mem_cons_self _ _
        exact (List.perm_insertionSort _ store).mem_iff.mp h1
      have hvic : hd.1 ∈ ((hd :: tl).take c).map Prod.fst := by
        cases c with
        | zero => omega
        | succ c' =>
            simp only [List.take, List.map]
            exact List.mem_cons_self _ _
      apply length_filter_lt_of_mem hmem
      simp only [Bool.not_eq_false', List.contains]
      exact List.elem_eq_true_of_mem hvic

theorem length_memSet_le {V : Type} {cfg : CacheConfig} (h10 : 10 ≤ cfg.maxSize)
    {store : Store V} (hst : store.length ≤ cfg.maxSize) (key : String) (value : V)
    (ttl? : Option Int) (now : Int) :
    (memSet cfg store key value ttl? now).length ≤ cfg.maxSize := by
  show (mapSet (if cfg.maxSize ≤ store.length then evictOldest store (evictCount cfg.maxSize)
      else store) key ⟨key, value, actualTtl cfg ttl?, now⟩).length ≤ cfg.maxSize
  by_cases hcap : cfg.maxSize ≤ store.length
  · rw [if_pos hcap]
    have hlen : store.length = cfg.maxSize := le_antisymm hst hcap
    have hne : store ≠ [] := by
      intro h
      rw [h] at hlen
      simp at hlen
      omega
    have hc : 1 ≤ evictCount cfg.maxSize :=
      (Nat.one_le_div_iff (by norm_num)).mpr (by omega)
    have hev := length_evictOldest_lt hne hc
    have hms := length_mapSet_le (evictOldest store (evictCount cfg.maxSize)) key
      ⟨key, value, actualTtl cfg ttl?, now⟩
    omega
  · rw [if_neg hcap]
    have hms := length_mapSet_le store key ⟨key, value, actualTtl cfg ttl?, now⟩
    omega

/-- The store produced by a sequence of memory-branch set operations,
each op giving key, value, ttl and timestamp, starting from the empty
map. -/
def runSets (cfg : CacheConfig) (ops : List (String × V × Option Int × Int)) : Store V :=
  ops.foldl (fun st o => memSet cfg st o.1 o.2.1 o.2.2.1 o.2.2.2) []

theorem runSets_invariant {V : Type} {cfg : CacheConfig} (h10 : 10 ≤ cfg.maxSize) :
    ∀ (ops : List (String × V × Option Int × Int)) (store : Store V),
      store.length ≤ cfg.maxSize →
      (ops.foldl (fun st o => memSet cfg st o.1 o.2.1 o.2.2.1 o.2.2.2) store).length
        ≤ cfg.maxSize := by
  intro ops
  induction ops with
  | nil => intro store h; simpa using h
  | cons o rest ih =>
      intro store h
      exact ih _ (length_memSet_le h10 h _ _ _ _)

/-- Claim C6. Capacity bound: over any sequence of set operations on
the bounded memory store the resident-entry count never exceeds the
configured capacity once a set completes (the configured capacity is
1000; the batch eviction removes a positive tenth whenever the capacity
is at least 10), and the key just inserted is present immediately after
its set completes. -/
theorem claim6_capacity_bound {V : Type} (cfg : CacheConfig) (h10 : 10 ≤ cfg.maxSize) :
    (∀ ops : List (String × V × Option Int × Int), (runSets cfg ops).length ≤ cfg.maxSize)
    ∧ (∀ (store : Store V) (key : String) (value : V) (ttl? : Option Int) (now : Int),
        mapGet (memSet cfg store key value ttl? now) key =
          some ⟨key, value, actualTtl cfg ttl?, now⟩) := by
  constructor
  · intro ops
    exact runSets_invariant h10 ops [] (by simp)
  · intro store key value ttl? now
    exact mapGet_mapSet_self _ _ _

/-- A capacity-10 configuration and eleven distinct inserted keys. -/
def c6cfg : CacheConfig := ⟨30 * 60, 5 * 60, 60 * 60, 10⟩

def c6ops : List (String × Nat × Option Int × Int) :=
  (List.range 11).map (fun i => (toString i, i, some 300, 0))

theorem claim6_witness :
    (runSets c6cfg c6ops).length ≤ c6cfg.maxSize
    ∧ mapGet (memSet c6cfg [] "k" (5 : Nat) (some 300) 0) "k" =
        some ⟨"k", 5, actualTtl c6cfg (some 300), 0⟩ := by
  have h := claim6_capacity_bound (V := Nat) c6cfg (by decide)
  exact ⟨h.1 c6ops, h.2 [] "k" 5 (some 300) 0⟩

theorem lookupStr_eq_some_mem : ∀ {p : List (String × PVal)} {k : String} {v : PVal},
    lookupStr k p = some v → (k, v) ∈ p := by
  intro p
  induction p with
  | nil => intro k v h; cases h
  | cons e rest ih =>
      intro k v h
      obtain ⟨k', v'⟩ := e
      by_cases hk : k' = k
      · subst hk
        simp only [lookupStr, if_pos rfl] at h
        cases h
        exact List.mem_cons_self _ _
      · simp only [lookupStr, if_neg hk] at h
        exact List.mem_cons_of_mem _ (ih h)

theorem mem_lookupStr : ∀ {p : List (String × PVal)} {k : String} {v : PVal},
    (p.map Prod.fst).Nodup → (k, v) ∈ p → lookupStr k p = some v := by
  intro p
  induction p with
  | nil => intro k v _ h; cases h
  | cons e rest ih =>
      intro k v hnd hm
      obtain ⟨k', v'⟩ := e
      simp only [List.map_cons, List.nodup_cons] at hnd
      obtain ⟨hnotin, hndrest⟩ := hnd
      rcases List.mem_cons.mp hm with heq | hmem
      · injection heq with h1 h2
        subst h1
        subst h2
        simp [lookupStr]
      · have hkne : k' ≠ k := by
          intro h
          subst h
          exact hnotin (List.mem_map_of_mem Prod.fst hmem)
        simp only [lookupStr, if_neg hkne]
        exact ih hndrest hmem

theorem lookupStr_eq_none : ∀ {p : List (String × PVal)} {k : String},
    lookupStr k p = none ↔ k ∉ p.map Prod.fst := by
  intro p
  induction p with
  | nil => intro k; simp [lookupStr]
  | cons e rest ih =>
      intro k
      obtain ⟨k', v'⟩ := e
      by_cases hk : k' = k
      · subst hk
        simp [lookupStr]
      · simp [lookupStr, hk, ih, Ne.symm hk]

theorem lookupStr_perm {p1 p2 : List (String × PVal)} (hperm : p1.Perm p2)
    (hnd : (p1.map Prod.fst).Nodup) (k : String) :
    lookupStr k p1 = lookupStr k p2 := by
  have hnd2 : (p2.map Prod.fst).Nodup := (hperm.map Prod.fst).nodup hnd
  cases h : lookupStr k p1 with
  | some v =>
      exact (mem_lookupStr hnd2 (hperm.mem_iff.mp (lookupStr_eq_some_mem h))).symm
  | none =>
      have h1 : k ∉ p1.map Prod.fst := lookupStr_eq_none.mp h
      have h2 : k ∉ p2.map Prod.fst := fun hm => h1 ((hperm.map Prod.fst).mem_iff.mpr hm)
      exact (lookupStr_eq_none.mpr h2).symm

/-- Claim C7. Key determinism: generateKey sorts the parameter names
before encoding, so two parameter bags that are permutations of the same
name-value pairs derive the same cache key. -/
theorem claim7_key_determinism (pfx : String) (p1 p2 : List (String × PVal))
    (hperm : p1.Perm p2) (hnd : (p1.map Prod.fst).Nodup) :
    generateKey pfx p1 = generateKey pfx p2 := by
  have hlookup : ∀ k, lookupStr k p1 = lookupStr k p2 := lookupStr_perm hperm hnd
  have hkeys : sortKeys (p1.map Prod.fst) = sortKeys (p2.map Prod.fst) := by
    apply List.eq_of_perm_of_sorted (r := strLe)
    · exact (List.perm_insertionSort _ _).trans
        ((hperm.map Prod.fst).trans (List.perm_insertionSort _ _).symm)
    · exact List.sorted_insertionSort _ _
    · exact List.sorted_insertionSort _ _
  unfold generateKey
  rw [show sortKeys (p1.map Prod.fst) = sortKeys (p2.map Prod.fst) from hkeys]
  simp only [hlookup]

def c7p1 : List (String × PVal) :=
  [("folder", .str "INBOX"), ("limit", .num 10), ("offset", .num 0)]

def c7p2 : List (String × PVal) :=
  [("offset", .num 0), ("folder", .str "INBOX"), ("limit", .num 10)]

theorem claim7_witness : generateKey "emails:list" c7p1 = generateKey "emails:list" c7p2 :=
  claim7_key_determinism "emails:list" c7p1 c7p2 (by decide) (by decide)

theorem claim5_witness :
    memGet c5store "k" 5000 = (none, [])
    ∧ mapGet (memGet c5store "k" 5000).2 "k" = none := by
  have h := (claim5_ttl_expiry (V := Nat)).1 c5store "k" 5000 ⟨"k", 7, 1, 0⟩ rfl (by decide)
  refine ⟨?_, h.2⟩
  rw [h.1]
  rfl

theorem runPool_invariant (maxSize : Nat) :
    ∀ (ops : List PoolOp) (st : PoolState),
      st.pool.length + st.inUse.length ≤ maxSize →
      validOps maxSize st ops = true →
      (ops.foldl (poolStep maxSize) st).pool.length +
        (ops.foldl (poolStep maxSize) st).inUse.length ≤ maxSize := by
  intro ops
  induction ops with
  | nil =>
      intro st h _
      simpa using h
  | cons op rest ih =>
      intro st hst hvalid
      rw [List.foldl_cons]
      cases op with
      | acq =>
          simp only [validOps, Bool.true_and] at hvalid
          apply ih _ ?_ hvalid
          unfold poolStep acquire
          cases hlast : st.pool.getLast? with
          | some conn =>
              have hne : st.pool ≠ [] := by
                intro h
                rw [h] at hlast
                simp at hlast
              have hpos : 0 < st.pool.length := List.length_pos.mpr hne
              simp only [hlast, List.length_dropLast, List.length_cons]
              omega
          | none =>
              by_cases hlt : st.inUse.length < maxSize
              · have hnil : st.pool = [] := List.getLast?_eq_none_iff.mp hlast
                simp only [hlast, if_pos hlt, List.length_cons, hnil, List.length_nil]
                omega
              · simp only [hlast, if_neg hlt]
                exact hst
      | rel conn =>
          simp only [validOps, Bool.and_eq_true] at hvalid
          obtain ⟨hguard, hrest⟩ := hvalid
          apply ih _ ?_ hrest
          have hmem : conn ∈ st.inUse := by simpa using hguard
          have herase : (st.inUse.erase conn).length = st.inUse.length - 1 :=
            List.length_erase_of_mem hmem
          have hpos : 0 < st.inUse.length :=
            List.length_pos.mpr (by intro h; rw [h] at hmem; cases hmem)
          unfold poolStep release
          by_cases hlt : st.pool.length < maxSize
          · simp only [if_pos hlt, List.length_append, List.length_cons,
              List.length_nil, herase]
            omega
          · simp only [if_neg hlt, herase]
            omega
      | destroy =>
          simp only [validOps, Bool.true_and] at hvalid
          apply ih _ ?_ hvalid
          simp [poolStep, destroyAll]

/-- Claim C8. Connection pool bound: along any acquire, release, destroy
sequence in which each released handle is checked out at that moment,
the in-use plus idle handle count never exceeds maxSize; and an acquire
performed with no idle handle and the in-use count at maxSize fails
immediately with the pool-exhausted error instead of blocking. -/
theorem claim8_pool_bound (maxSize : Nat) :
    (∀ ops : List PoolOp, validOps maxSize emptyPool ops = true →
        (runPool maxSize ops).pool.length + (runPool maxSize ops).inUse.length ≤ maxSize)
    ∧ (∀ st : PoolState, st.pool = [] → st.inUse.length = maxSize →
        acquire maxSize st = .error "Connection pool exhausted") := by
  constructor
  · intro ops hvalid
    exact runPool_invariant maxSize ops emptyPool (by simp [emptyPool]) hvalid
  · intro st hpool hfull
    unfold acquire
    rw [hpool]
    simp [hfull]

theorem claim8_witness :
    (runPool 2 [PoolOp.acq, PoolOp.acq, PoolOp.acq]).pool.length +
      (runPool 2 [PoolOp.acq, PoolOp.acq, PoolOp.acq]).inUse.length ≤ 2
    ∧ acquire 2 ⟨[], [1, 0], 2⟩ = .error "Connection pool exhausted" := by
  exact ⟨(claim8_pool_bound 2).1 [PoolOp.acq, PoolOp.acq, PoolOp.acq] (by decide),
    (claim8_pool_bound 2).2 ⟨[], [1, 0], 2⟩ rfl rfl⟩

theorem delays_shift (base attempt k : Nat) :
    (List.range (k + 1)).map (fun i => base * 2 ^ (attempt + i)) =
      base * 2 ^ attempt :: (List.range k).map (fun i => base * 2 ^ (attempt + 1 + i)) := by
  rw [List.range_succ_eq_map, List.map_cons, List.map_map]
  refine congrArg₂ _ (by rw [Nat.add_zero]) ?_
  apply List.map_congr_left
  intro i _
  simp only [Function.comp]
  have h : attempt + (i + 1) = attempt + 1 + i := by omega
  rw [h]

theorem retryAux_calls_le (op : Nat → Except E A) (base : Nat) :
    ∀ (r attempt : Nat), (retryAux op base attempt r).2.2 ≤ r + 1 := by
  intro r
  induction r with
  | zero =>
      intro attempt
      unfold retryAux
      cases op attempt <;> simp
  | succ r' ih =>
      intro attempt
      unfold retryAux
      cases hop : op attempt with
      | error e =>
          simp only [hop]
          have hih := ih (attempt + 1)
          show (retryAux op base (attempt + 1) r').2.2 + 1 ≤ r' + 1 + 1
          omega
      | ok a => simp [hop]

theorem retryAux_success (op : Nat → Except E A) (base : Nat) :
    ∀ (k r attempt : Nat) (a : A), k ≤ r → op (attempt + k) = .ok a →
      (∀ j, j < k → ∃ e, op (attempt + j) = .error e) →
      retryAux op base attempt r =
        (.ok a, (List.range k).map (fun i => base * 2 ^ (attempt + i)), k + 1) := by
  intro k
  induction k with
  | zero =>
      intro r attempt a _ hop _
      rw [Nat.add_zero] at hop
      cases r with
      | zero => simp [retryAux, hop]
      | succ r' => simp [retryAux, hop]
  | succ k ih =>
      intro r attempt a hk hop hprev
      cases r with
      | zero => omega
      | succ r' =>
          obtain ⟨e0, he0⟩ := hprev 0 (Nat.succ_pos k)
          rw [Nat.add_zero] at he0
          have hih := ih r' (attempt + 1) a (by omega)
            (by rw [show attempt + 1 + k = attempt + (k + 1) from by omega]; exact hop)
            (fun j hj => by
              obtain ⟨e, he⟩ := hprev (j + 1) (by omega)
              exact ⟨e, by rw [show attempt + 1 + j = attempt + (j + 1) from by omega]; exact he⟩)
          simp only [retryAux, he0]
          rw [hih, delays_shift]

theorem retryAux_exhaust (op : Nat → Except E A) (base : Nat) :
    ∀ (r attempt : Nat), (∀ j, j ≤ r → ∃ e, op (attempt + j) = .error e) →
      ∃ e, op (attempt + r) = .error e ∧
        retryAux op base attempt r =
          (.error e, (List.range r).map (fun i => base * 2 ^ (attempt + i)), r + 1) := by
  intro r
  induction r with
  | zero =>
      intro attempt h
      obtain ⟨e, he⟩ := h 0 le_rfl
      rw [Nat.add_zero] at he
      exact ⟨e, by rw [Nat.add_zero]; exact he, by simp [retryAux, he]⟩
  | succ r' ih =>
      intro attempt h
      obtain ⟨e0, he0⟩ := h 0 (Nat.zero_le _)
      rw [Nat.add_zero] at he0
      obtain ⟨e, he, heq⟩ := ih (attempt + 1) (fun j hj => by
        obtain ⟨e', he'⟩ := h (j + 1) (by omega)
        exact ⟨e', by rw [show attempt + 1 + j = attempt + (j + 1) from by omega]; exact he'⟩)
      refine ⟨e, ?_, ?_⟩
      · rw [show attempt + (r' + 1) = attempt + 1 + r' from by omega]
        exact he
      · simp only [retryAux, he0]
        rw [heq, delays_shift]

/-- Claim C9. Retry with exponential backoff: retry invokes the
operation at most maxRetries plus one times; if the first success is at
attempt k it returns that result after sleeping baseDelay, 2 baseDelay,
..., baseDelay times 2 to the k minus 1; and when every attempt fails it
re-throws the error of the last attempt after sleeping the same
doubling sequence for every failure but the last. -/
theorem claim9_retry_backoff {E A : Type} (op : Nat → Except E A)
    (maxRetries baseDelay : Nat) :
    ((retry op maxRetries baseDelay).2.2 ≤ maxRetries + 1)
    ∧ (∀ (k : Nat) (a : A), k ≤ maxRetries → op k = .ok a →
        (∀ j, j < k → ∃ e, op j = .error e) →
        retry op maxRetries baseDelay =
          (.ok a, (List.range k).map (fun i => baseDelay * 2 ^ i), k + 1))
    ∧ ((∀ j, j ≤ maxRetries → ∃ e, op j = .error e) →
        ∃ e, op maxRetries = .error e ∧
          retry op maxRetries baseDelay =
            (.error e, (List.range maxRetries).map (fun i => baseDelay * 2 ^ i),
              maxRetries + 1)) := by
  refine ⟨retryAux_calls_le op baseDelay maxRetries 0, ?_, ?_⟩
  · intro k a hk hop hprev
    have h := retryAux_success op baseDelay k maxRetries 0 a hk (by simpa using hop)
      (fun j hj => by simpa using hprev j hj)
    simpa using h
  · intro h
    have hx := retryAux_exhaust op baseDelay maxRetries 0 (fun j hj => by simpa using h j hj)
    simpa using hx

/-- An operation that fails transiently on its first attempt and
succeeds on the second. -/
def c9op : Nat → Except String Nat :=
  fun n => if n = 0 then .error "transient" else .ok 42

theorem claim9_witness : retry c9op 3 1000 = (.ok 42, [1000], 2) := by
  have h := (claim9_retry_backoff c9op 3 1000).2.1 1 42 (by omega) rfl
    (fun j hj => ⟨"transient", by
      have hj0 : j = 0 := by omega
      subst hj0
      rfl⟩)
  simpa using h

/-! ## Evaluation lemmas for the listEmails wrapper -/

theorem memGet_of_mapGet_none {V : Type} {store : Store V} {key : String} (now : Int)
    (h : mapGet store key = none) : memGet store key now = (none, store) := by
  simp [memGet, h]

theorem svcListEmails_hit {α : Type}
    (imap : String → Int → Int → String → ListResult α) (cfg : ImapConfig)
    (folder : String) (limit offset : Int) (sortOrder : String) (now : Int)
    (st : SvcState α) (l : List α) (store' : Store (CVal α))
    (hhit : memGet st.store (listKey cfg folder limit offset sortOrder) now =
      (some (CVal.elist l), store')) :
    svcListEmails imap cfg folder limit offset sortOrder true now st =
      (⟨true, l, (l.length : Int), ((l.length : Int) == limit)⟩, ⟨store', st.calls⟩) := by
  simp only [svcListEmails]
  rw [hhit]
  rfl

theorem svcListEmails_miss {α : Type}
    (imap : String → Int → Int → String → ListResult α) (cfg : ImapConfig)
    (folder : String) (limit offset : Int) (sortOrder : String) (now : Int)
    (st : SvcState α)
    (hmiss : (memGet st.store (listKey cfg folder limit offset sortOrder) now).1 = none) :
    svcListEmails imap cfg folder limit offset sortOrder true now st =
      (⟨true, (imap folder limit offset sortOrder).emails,
        (imap folder limit offset sortOrder).total,
        (imap folder limit offset sortOrder).hasMore⟩,
       ⟨if (imap folder limit offset sortOrder).emails.isEmpty then
           (memGet st.store (listKey cfg folder limit offset sortOrder) now).2
         else
           memSet defaultConfig
             (memGet st.store (listKey cfg folder limit offset sortOrder) now).2
             (listKey cfg folder limit offset sortOrder)
             (CVal.elist (imap folder limit offset sortOrder).emails)
             (some defaultConfig.listTtl) now,
        st.calls + 1⟩) := by
  have hpair : memGet st.store (listKey cfg folder limit offset sortOrder) now =
      (none, (memGet st.store (listKey cfg folder limit offset sortOrder) now).2) := by
    rw [← hmiss]
  simp only [svcListEmails, if_pos rfl]
  rw [hpair]
  cases he : (imap folder limit offset sortOrder).emails.isEmpty <;> simp [he]

/-- An account with host h and user u. -/
def cfgHU : ImapConfig := ⟨"h", "u"⟩

def c2listKey : String := listKey cfgHU "INBOX" 10 0 "desc"

def c2store : Store (CVal String) :=
  memSet defaultConfig
    (memSet defaultConfig [] c2listKey (CVal.elist ["5"]) (some defaultConfig.listTtl) 0)
    (emailKey "INBOX" "5") (CVal.email "5") (some defaultConfig.emailTtl) 0

def c2after : Store (CVal String) :=
  invalidateCache cfgHU ⟨OpType.mark_read, ["5"]⟩ "INBOX" c2store

/-- Claim C2 (code bug). Invalidation incompleteness: after a mark_read
operation on uid 5 in INBOX against a primed cache, the single-email
entry is gone, but the cached email list for INBOX survives — the
clearPattern glob emails:list:*INBOX* cannot match the base64-encoded
portion of the list key, so the stale list is still served. -/
theorem claim2_invalidation_incomplete :
    mapGet c2after (emailKey "INBOX" "5") = none
    ∧ (memGet c2after c2listKey 1000).1 = some (CVal.elist ["5"]) := by
  constructor
  · rfl
  · rfl

def c3q1 : EmailSearchQuery := { query := some "hello" }

def c3q2 : EmailSearchQuery := { query := some "world" }

/-- Claim C3 (code bug). Key collisions: two different search queries
stringify to [object Object] inside generateKey and so derive the same
search cache key, and the single-email key is email:folder:uid with no
account component at all. -/
theorem claim3_key_collisions :
    c3q1 ≠ c3q2
    ∧ searchKey cfgHU c3q1 "INBOX" 50 0 = searchKey cfgHU c3q2 "INBOX" 50 0
    ∧ emailKey "INBOX" "5" = "email:INBOX:5" := by
  refine ⟨by decide, rfl, rfl⟩

def c4imap : String → Int → Int → String → ListResult String :=
  fun _ _ _ _ => ⟨["e1"], 5, true⟩

def c4first : ListEmailsResponse String × SvcState String :=
  svcListEmails c4imap cfgHU "INBOX" 10 0 "desc" true 0 ⟨[], 0⟩

def c4second : ListEmailsResponse String × SvcState String :=
  svcListEmails c4imap cfgHU "INBOX" 10 0 "desc" true 0 c4first.2

/-- Claim C4 counterexample. The upstream reports one email of a total
of five; the repeated identical call answers from the cache without a
Mailbox Service call but reports total 1, not the first response's 5. -/
theorem claim4_counterexample :
    c4first.2.calls = 1 ∧ c4second.2.calls = 1
    ∧ c4second.1.emails = c4first.1.emails
    ∧ c4second.1.total ≠ c4first.1.total := by
  refine ⟨rfl, rfl, rfl, by decide⟩

/-- Claim C4 as amended. Cold-then-hot list equivalence: on an empty
cache a useCache listEmails call performs exactly one Mailbox Service
call and relays the upstream emails, total and hasMore; an identical
call within the five-minute list TTL performs zero further Mailbox
Service calls and returns the same emails, with total recomputed as the
cached length and hasMore as cached-length equals limit (so the full
responses coincide exactly when the upstream total equals the email
count and its hasMore equals that comparison). -/
theorem claim4_cold_then_hot {α : Type}
    (imap : String → Int → Int → String → ListResult α) (cfg : ImapConfig)
    (folder : String) (limit offset : Int) (sortOrder : String) (now now₂ : Int)
    (hne : (imap folder limit offset sortOrder).emails ≠ [])
    (hfresh : now₂ - now < 300000) :
    ((svcListEmails imap cfg folder limit offset sortOrder true now ⟨[], 0⟩).2.calls = 1)
    ∧ ((svcListEmails imap cfg folder limit offset sortOrder true now ⟨[], 0⟩).1 =
        ⟨true, (imap folder limit offset sortOrder).emails,
          (imap folder limit offset sortOrder).total,
          (imap folder limit offset sortOrder).hasMore⟩)
    ∧ ((svcListEmails imap cfg folder limit offset sortOrder true now₂
          (svcListEmails imap cfg folder limit offset sortOrder true now ⟨[], 0⟩).2).2.calls = 1)
    ∧ ((svcListEmails imap cfg folder limit offset sortOrder true now₂
          (svcListEmails imap cfg folder limit offset sortOrder true now ⟨[], 0⟩).2).1 =
        ⟨true, (imap folder limit offset sortOrder).emails,
          ((imap folder limit offset sortOrder).emails.length : Int),
          (((imap folder limit offset sortOrder).emails.length : Int) == limit)⟩) := by
  have hmiss0 : (memGet ([] : Store (CVal α)) (listKey cfg folder limit offset sortOrder) now).1
      = none := rfl
  have h1 := svcListEmails_miss imap cfg folder limit offset sortOrder now ⟨[], 0⟩ hmiss0
  have hisempty : (imap folder limit offset sortOrder).emails.isEmpty = false :=
    List.isEmpty_eq_false.mpr hne
  rw [hisempty] at h1
  simp only [Bool.false_eq_true, if_false] at h1
  have hstore1 : memSet defaultConfig
      (memGet ([] : Store (CVal α)) (listKey cfg folder limit offset sortOrder) now).2
      (listKey cfg folder limit offset sortOrder)
      (CVal.elist (imap folder limit offset sortOrder).emails)
      (some defaultConfig.listTtl) now =
      [(listKey cfg folder limit offset sortOrder,
        ⟨listKey cfg folder limit offset sortOrder,
         CVal.elist (imap folder limit offset sortOrder).emails, 300, now⟩)] := by
    norm_num [memSet, mapSet, actualTtl, defaultConfig, memGet, mapGet]
  rw [hstore1] at h1
  have hhit2 : memGet
      [(listKey cfg folder limit offset sortOrder,
        ⟨listKey cfg folder limit offset sortOrder,
         CVal.elist (imap folder limit offset sortOrder).emails, 300, now⟩)]
      (listKey cfg folder limit offset sortOrder) now₂ =
      (some (CVal.elist (imap folder limit offset sortOrder).emails),
       [(listKey cfg folder limit offset sortOrder,
         ⟨listKey cfg folder limit offset sortOrder,
          CVal.elist (imap folder limit offset sortOrder).emails, 300, now⟩)]) := by
    have hmg : mapGet
        [(listKey cfg folder limit offset sortOrder,
          (⟨listKey cfg folder limit offset sortOrder,
            CVal.elist (imap folder limit offset sortOrder).emails, 300, now⟩ :
            CacheItem (CVal α)))]
        (listKey cfg folder limit offset sortOrder) =
        some ⟨listKey cfg folder limit offset sortOrder,
          CVal.elist (imap folder limit offset sortOrder).emails, 300, now⟩ := by
      simp [mapGet]
    simp only [memGet, hmg]
    rw [if_pos (show now₂ - now < (300 : Int) * 1000 by omega)]
  have h2 := svcListEmails_hit imap cfg folder limit offset sortOrder now₂
    ⟨[(listKey cfg folder limit offset sortOrder,
       ⟨listKey cfg folder limit offset sortOrder,
        CVal.elist (imap folder limit offset sortOrder).emails, 300, now⟩)], 1⟩
    (imap folder limit offset sortOrder).emails
    [(listKey cfg folder limit offset sortOrder,
      ⟨listKey cfg folder limit offset sortOrder,
       CVal.elist (imap folder limit offset sortOrder).emails, 300, now⟩)] hhit2
  refine ⟨by rw [h1], by rw [h1], ?_, ?_⟩
  · rw [h1]
    rw [h2]
  · rw [h1]
    rw [h2]

/-- An upstream whose result is consistent with the recomputation the
cached path performs. -/
def c4wimap : String → Int → Int → String → ListResult String :=
  fun _ _ _ _ => ⟨["a"], 1, false⟩

theorem claim4_witness :
    ((svcListEmails c4wimap cfgHU "INBOX" 10 0 "desc" true 0 ⟨[], 0⟩).2.calls = 1)
    ∧ ((svcListEmails c4wimap cfgHU "INBOX" 10 0 "desc" true 0 ⟨[], 0⟩).1 =
        ⟨true, ["a"], 1, false⟩)
    ∧ ((svcListEmails c4wimap cfgHU "INBOX" 10 0 "desc" true 0
          (svcListEmails c4wimap cfgHU "INBOX" 10 0 "desc" true 0 ⟨[], 0⟩).2).2.calls = 1)
    ∧ ((svcListEmails c4wimap cfgHU "INBOX" 10 0 "desc" true 0
          (svcListEmails c4wimap cfgHU "INBOX" 10 0 "desc" true 0 ⟨[], 0⟩).2).1 =
        ⟨true, ["a"], 1, false⟩) := by
  have h := claim4_cold_then_hot c4wimap cfgHU "INBOX" 10 0 "desc" 0 0
    (by decide) (by decide)
  exact ⟨h.1, h.2.1, h.2.2.1, by rw [h.2.2.2]; rfl⟩

def c10imap : String → Int → Int → String → ListResult String :=
  fun _ _ _ _ => ⟨[], 0, false⟩

def c10store : Store (CVal String) :=
  [(listKey cfgHU "INBOX" 10 0 "desc",
    ⟨listKey cfgHU "INBOX" 10 0 "desc", CVal.elist ["old"], 300, 0⟩)]

/-- Claim C10 counterexample: a useCache list call whose upstream fetch
returns no emails can still change the concrete cache state, because the
lookup lazily evicts an expired entry under the derived key. -/
theorem claim10_counterexample :
    (c10imap "INBOX" 10 0 "desc").emails = []
    ∧ (svcListEmails c10imap cfgHU "INBOX" 10 0 "desc" true 300000 ⟨c10store, 0⟩).2.store
        ≠ c10store := by
  refine ⟨rfl, ?_⟩
  rw [show (svcListEmails c10imap cfgHU "INBOX" 10 0 "desc" true 300000
    ⟨c10store, 0⟩).2.store = [] from rfl]
  simp [c10store]

/-- Claim C10 as amended. Empty list results are never cached: when the
upstream fetch returns an empty email array neither listEmails nor
searchEmails writes a cache entry — the store the call leaves behind is
exactly the store the cache lookup produced (unchanged except possibly
for the lazy eviction of an expired entry at the derived key, and
exactly unchanged when the key is not resident) — and from a clean miss
a repeated identical list request performs another Mailbox Service
fetch every time. -/
theorem claim10_empty_not_cached {α : Type}
    (imap : String → Int → Int → String → ListResult α)
    (imapS : EmailSearchQuery → String → Int → Int → ListResult α)
    (cfg : ImapConfig) (q : EmailSearchQuery) (folder : String) (limit offset : Int)
    (sortOrder : String) (now now₂ : Int) (st : SvcState α)
    (hempty : (imap folder limit offset sortOrder).emails = [])
    (hemptyS : (imapS q folder limit offset).emails = []) :
    ((svcListEmails imap cfg folder limit offset sortOrder true now st).2.store =
      (memGet st.store (listKey cfg folder limit offset sortOrder) now).2)
    ∧ (mapGet st.store (listKey cfg folder limit offset sortOrder) = none →
        (svcListEmails imap cfg folder limit offset sortOrder true now st).2.store = st.store
        ∧ (svcListEmails imap cfg folder limit offset sortOrder true now st).2.calls =
            st.calls + 1
        ∧ (svcListEmails imap cfg folder limit offset sortOrder true now₂
            (svcListEmails imap cfg folder limit offset sortOrder true now st).2).2.calls =
            st.calls + 2)
    ∧ (isSearchCacheable q = true →
        (svcSearchEmails imapS cfg q folder limit offset true now st).2.store =
          (memGet st.store (searchKey cfg q folder limit offset) now).2)
    ∧ (isSearchCacheable q = false →
        (svcSearchEmails imapS cfg q folder limit offset true now st).2.store = st.store)
    ∧ (mapGet st.store (searchKey cfg q folder limit offset) = none →
        (svcSearchEmails imapS cfg q folder limit offset true now st).2.store = st.store
        ∧ (svcSearchEmails imapS cfg q folder limit offset true now st).2.calls =
            st.calls + 1) := by
  have hA : ∀ (now' : Int) (st' : SvcState α),
      (svcListEmails imap cfg folder limit offset sortOrder true now' st').2.store =
        (memGet st'.store (listKey cfg folder limit offset sortOrder) now').2
      ∧ ((memGet st'.store (listKey cfg folder limit offset sortOrder) now').1 = none →
          (svcListEmails imap cfg folder limit offset sortOrder true now' st').2.calls =
            st'.calls + 1) := by
    intro now' st'
    rcases hmem : memGet st'.store (listKey cfg folder limit offset sortOrder) now'
      with ⟨v, store'⟩
    simp only [svcListEmails]
    rw [hmem]
    cases v with
    | none => simp [hempty]
    | some cv =>
        cases cv with
        | elist l => simp
        | email m => simp [hempty]
        | folders f => simp [hempty]
  refine ⟨(hA now st).1, ?_, ?_, ?_, ?_⟩
  · intro hnone
    have hmg : memGet st.store (listKey cfg folder limit offset sortOrder) now =
        (none, st.store) := memGet_of_mapGet_none now hnone
    have hstore1 : (svcListEmails imap cfg folder limit offset sortOrder true now st).2.store
        = st.store := by rw [(hA now st).1, hmg]
    have hcalls1 : (svcListEmails imap cfg folder limit offset sortOrder true now st).2.calls
        = st.calls + 1 := (hA now st).2 (by rw [hmg])
    refine ⟨hstore1, hcalls1, ?_⟩
    have hmg₂ : memGet
        (svcListEmails imap cfg folder limit offset sortOrder true now st).2.store
        (listKey cfg folder limit offset sortOrder) now₂ =
        (none, (svcListEmails imap cfg folder limit offset sortOrder true now st).2.store) := by
      rw [hstore1]
      exact memGet_of_mapGet_none now₂ hnone
    have hcalls2 := (hA now₂
      (svcListEmails imap cfg folder limit offset sortOrder true now st).2).2
      (by rw [hmg₂])
    rw [hcalls2, hcalls1]
  · intro hcach
    rcases hmem : memGet st.store (searchKey cfg q folder limit offset) now
      with ⟨v, store'⟩
    simp only [svcSearchEmails, hcach]
    rw [hmem]
    cases v with
    | none => simp [hemptyS]
    | some cv =>
        cases cv with
        | elist l => simp
        | email m => simp [hemptyS]
        | folders f => simp [hemptyS]
  · intro hncach
    simp only [svcSearchEmails, hncach]
    simp [hemptyS, hncach]
  · intro hnone
    by_cases hcach : isSearchCacheable q
    · have hmg : memGet st.store (searchKey cfg q folder limit offset) now =
          (none, st.store) := memGet_of_mapGet_none now hnone
      constructor
      · simp only [svcSearchEmails, hcach]
        rw [hmg]
        simp [hemptyS]
      · simp only [svcSearchEmails, hcach]
        rw [hmg]
        simp [hemptyS]
    · rw [Bool.not_eq_true] at hcach
      constructor
      · simp only [svcSearchEmails, hcach]
        simp [hemptyS, hcach]
      · simp only [svcSearchEmails, hcach]
        simp [hemptyS, hcach]

/-- A search query with no date-range and no read-status constraint, so
it is cacheable. -/
def c10q : EmailSearchQuery := { query := some "hello" }

def c10imapS : EmailSearchQuery → String → Int → Int → ListResult String :=
  fun _ _ _ _ => ⟨[], 0, false⟩

theorem claim10_witness :
    ((svcListEmails c10imap cfgHU "INBOX" 10 0 "desc" true 0 ⟨[], 0⟩).2.store = [])
    ∧ ((svcListEmails c10imap cfgHU "INBOX" 10 0 "desc" true 0 ⟨[], 0⟩).2.calls = 1)
    ∧ ((svcListEmails c10imap cfgHU "INBOX" 10 0 "desc" true 0
        (svcListEmails c10imap cfgHU "INBOX" 10 0 "desc" true 0 ⟨[], 0⟩).2).2.calls = 2)
    ∧ ((svcSearchEmails c10imapS cfgHU c10q "INBOX" 10 0 true 0 ⟨[], 0⟩).2.store = [])
    ∧ ((svcSearchEmails c10imapS cfgHU c10q "INBOX" 10 0 true 0 ⟨[], 0⟩).2.calls = 1) := by
  have h := claim10_empty_not_cached c10imap c10imapS cfgHU c10q "INBOX" 10 0 "desc"
    0 0 ⟨[], 0⟩ rfl rfl
  have hlist := h.2.1 rfl
  have hsearch := h.2.2.2.2 rfl
  exact ⟨hlist.1, hlist.2.1, hlist.2.2, hsearch.1, hsearch.2⟩

end EmailCache
